import Mathlib

/-!
Shallow embedding of the nearest-color palette-matching and mosaic-assembly
pipeline of the map-art converter (`mapart.js`, here `src/unnamed/part_000`)
and of the gradient tool (`src/docs/gradient/app.js`).

Numbers: JavaScript floats are modelled as real numbers; the catalog data
(`blocks.json`) supplies finite decimal values, modelled as arbitrary reals.
-/

/-- Boolean tag set of a catalog entry (`b.tags` in the source). -/
structure Tags where
  transparent : Bool
  noisy : Bool
  creative_only : Bool
deriving DecidableEq

/-- Boolean structural-flag set of a catalog entry (`b.tag_flags`). -/
structure TagFlags where
  full_block : Bool
  building_block : Bool
  plantlike : Bool
  redstone : Bool
  ore : Bool
deriving DecidableEq

/-- One record of `blocks.json`: display name, optional average Lab color,
tags and structural flags.  `avg_lab` is `none` when the JSON record lacks
the field (the `!b?.avg_lab` check in the source). -/
structure Block where
  name : String
  avg_lab : Option (ℝ × ℝ × ℝ)
  tags : Tags
  tag_flags : TagFlags

/-- Palette entry as pushed by `buildPalette`:
`{ id, name: b.name || id, lab: b.avg_lab, tags, flags }`. -/
structure Entry where
  id : String
  name : String
  lab : ℝ × ℝ × ℝ
  tags : Tags
  flags : TagFlags

/-- Transfer curve `srgbToLinear(u)` of the source:
`u <= 0.04045 ? u/12.92 : ((u+0.055)/1.055)^2.4`. -/
noncomputable def srgbToLinear (u : ℝ) : ℝ :=
  if u ≤ 0.04045 then u / 12.92 else ((u + 0.055) / 1.055) ^ (2.4 : ℝ)

/-- Linear-RGB to XYZ matrix product `rgbToXyz(r,g,b)` of the source. -/
def rgbToXyz (r g b : ℝ) : ℝ × ℝ × ℝ :=
  (r * 0.4124564 + g * 0.3575761 + b * 0.1804375,
   r * 0.2126729 + g * 0.7151522 + b * 0.0721750,
   r * 0.0193339 + g * 0.1191920 + b * 0.9503041)

/-- Piecewise Lab helper `fLab(t)` of the source, with `d = 6/29`:
`t > d^3 ? cbrt(t) : t/(3 d^2) + 4/29`.  `Math.cbrt t` is modelled as
`t ^ (1/3 : ℝ)`; the branch guard makes the base positive, where the two
functions agree. -/
noncomputable def fLab (t : ℝ) : ℝ :=
  let d : ℝ := 6 / 29
  let d3 : ℝ := d * d * d
  if t > d3 then t ^ ((1 : ℝ) / 3) else t / (3 * d * d) + 4 / 29

/-- XYZ to Lab conversion `xyzToLab(x,y,z)` with D65 reference white. -/
noncomputable def xyzToLab (x y z : ℝ) : ℝ × ℝ × ℝ :=
  let Xn : ℝ := 0.95047
  let Yn : ℝ := 1.0
  let Zn : ℝ := 1.08883
  let fx := fLab (x / Xn)
  let fy := fLab (y / Yn)
  let fz := fLab (z / Zn)
  (116 * fy - 16, 500 * (fx - fy), 200 * (fy - fz))

/-- Full byte-triple conversion `rgbToLab255(R,G,B)` of the source. -/
noncomputable def rgbToLab255 (R G B : ℕ) : ℝ × ℝ × ℝ :=
  let r := srgbToLinear ((R : ℝ) / 255)
  let g := srgbToLinear ((G : ℝ) / 255)
  let b := srgbToLinear ((B : ℝ) / 255)
  let xyz := rgbToXyz r g b
  xyzToLab xyz.1 xyz.2.1 xyz.2.2

/-- Euclidean Lab distance `distLab(a,b)` of the source. -/
noncomputable def distLab (a b : ℝ × ℝ × ℝ) : ℝ :=
  let dL := a.1 - b.1
  let da := a.2.1 - b.2.1
  let db := a.2.2 - b.2.2
  Real.sqrt (dL * dL + da * da + db * db)

/-- Loop body state of `findNearestBlock`: the running `best` entry together
with its distance `bestD`; `none` models the initial `best = null`,
`bestD = Infinity` state. -/
noncomputable def fnbGo (lab : ℝ × ℝ × ℝ) :
    Option (Entry × ℝ) → List Entry → Option (Entry × ℝ)
  | best, [] => best
  | best, p :: rest =>
    let d := distLab lab p.lab
    match best with
    | none => fnbGo lab (some (p, d)) rest
    | some (b, bd) =>
      if d < bd then fnbGo lab (some (p, d)) rest else fnbGo lab (some (b, bd)) rest

/-- Linear scan `findNearestBlock(lab)` of the source over a given palette:
keeps the strict minimum of the Euclidean Lab distance, first entry wins
ties. Returns `none` exactly when the palette is empty. -/
noncomputable def findNearestBlock (lab : ℝ × ℝ × ℝ) (palette : List Entry) :
    Option Entry :=
  (fnbGo lab none palette).map Prod.fst

/-- Specification companion of `findNearestBlock`: structurally recursive
first-minimum of a list under the Lab distance to `lab`.  Later entries
replace the running choice only when strictly closer, so the earliest
minimum survives. -/
noncomputable def firstMin (lab : ℝ × ℝ × ℝ) : List Entry → Option Entry
  | [] => none
  | p :: ps =>
    match firstMin lab ps with
    | none => some p
    | some q => if distLab lab q.lab < distLab lab p.lab then some q else some p

/-- Accumulator lemma: running the scan loop with current best `b` (whose
stored distance is the distance of `b`) selects between `b` and the first
minimum of the remaining list. -/
theorem fnbGo_some_eq (lab : ℝ × ℝ × ℝ) :
    ∀ (l : List Entry) (b : Entry),
      fnbGo lab (some (b, distLab lab b.lab)) l =
        some (match firstMin lab l with
              | none => b
              | some q => if distLab lab q.lab < distLab lab b.lab then q else b,
              distLab lab (match firstMin lab l with
              | none => b
              | some q => if distLab lab q.lab < distLab lab b.lab then q else b).lab) := by
  intro l
  induction l with
  | nil => intro b; simp [fnbGo, firstMin]
  | cons p rest ih =>
    intro b
    by_cases h : distLab lab p.lab < distLab lab b.lab
    · rw [show fnbGo lab (some (b, distLab lab b.lab)) (p :: rest) =
            fnbGo lab (some (p, distLab lab p.lab)) rest by
          simp [fnbGo, h]]
      rw [ih p]
      rcases hf : firstMin lab rest with _ | q
      · simp [firstMin, hf, h]
      · simp only [firstMin, hf]
        by_cases hq : distLab lab q.lab < distLab lab p.lab
        · have hqb : distLab lab q.lab < distLab lab b.lab := lt_trans hq h
          simp [hq, hqb]
        · simp [hq, h]
    · rw [show fnbGo lab (some (b, distLab lab b.lab)) (p :: rest) =
            fnbGo lab (some (b, distLab lab b.lab)) rest by
          simp [fnbGo, h]]
      rw [ih b]
      rcases hf : firstMin lab rest with _ | q
      · simp [firstMin, hf, h]
      · simp only [firstMin, hf]
        by_cases hq : distLab lab q.lab < distLab lab p.lab
        · simp [hq]
        · have hqb : ¬ distLab lab q.lab < distLab lab b.lab := by
            intro hc
            exact hq (lt_of_lt_of_le hc (le_of_not_lt h))
          simp [hq, h, hqb]

/-- The scan of `findNearestBlock` computes exactly the first minimum. -/
theorem findNearestBlock_eq_firstMin (lab : ℝ × ℝ × ℝ) (l : List Entry) :
    findNearestBlock lab l = firstMin lab l := by
  cases l with
  | nil => simp [findNearestBlock, fnbGo, firstMin]
  | cons p rest =>
    show (fnbGo lab none (p :: rest)).map Prod.fst = _
    rw [show fnbGo lab none (p :: rest) =
          fnbGo lab (some (p, distLab lab p.lab)) rest by simp [fnbGo]]
    rw [fnbGo_some_eq lab rest p]
    rcases hf : firstMin lab rest with _ | q
    · simp [firstMin, hf]
    · simp only [firstMin, hf, Option.map_some]
      by_cases hq : distLab lab q.lab < distLab lab p.lab <;> simp [hq]

/-- Unfolding equation of `firstMin` on a nonempty list. -/
theorem firstMin_cons (lab : ℝ × ℝ × ℝ) (p : Entry) (ps : List Entry) :
    firstMin lab (p :: ps) =
      match firstMin lab ps with
      | none => some p
      | some q => if distLab lab q.lab < distLab lab p.lab then some q else some p := rfl

/-- Index characterization of `firstMin`: it returns the entry at the least
index attaining the minimal distance. -/
theorem firstMin_spec (lab : ℝ × ℝ × ℝ) :
    ∀ (l : List Entry), l ≠ [] →
      ∃ (i : ℕ) (hi : i < l.length),
        firstMin lab l = some (l.get ⟨i, hi⟩) ∧
        (∀ (j : ℕ) (hj : j < l.length),
          distLab lab (l.get ⟨i, hi⟩).lab ≤ distLab lab (l.get ⟨j, hj⟩).lab) ∧
        (∀ (j : ℕ) (hj : j < l.length), j < i →
          distLab lab (l.get ⟨i, hi⟩).lab < distLab lab (l.get ⟨j, hj⟩).lab) := by
  intro l
  induction l with
  | nil => intro h; exact absurd rfl h
  | cons p rest ih =>
    intro _
    cases rest with
    | nil =>
      refine ⟨0, by simp, by simp [firstMin], ?_, ?_⟩
      · intro j hj
        have : j = 0 := by simp at hj; omega
        subst this
        exact le_refl _
      · intro j hj hj0
        omega
    | cons r rs =>
      obtain ⟨i', hi', hget, hmin, hstrict⟩ := ih (by simp)
      by_cases h : distLab lab ((r :: rs).get ⟨i', hi'⟩).lab < distLab lab p.lab
      · refine ⟨i' + 1, by simpa using hi', ?_, ?_, ?_⟩
        · rw [firstMin_cons, hget]
          show (if distLab lab ((r :: rs).get ⟨i', hi'⟩).lab < distLab lab p.lab
                then some ((r :: rs).get ⟨i', hi'⟩) else some p) = _
          rw [if_pos h]
          rfl
        · intro j hj
          cases j with
          | zero => exact le_of_lt h
          | succ j' =>
            have hj' : j' < (r :: rs).length := by simpa using hj
            exact hmin j' hj'
        · intro j hj hlt
          cases j with
          | zero => exact h
          | succ j' =>
            have hj' : j' < (r :: rs).length := by simpa using hj
            exact hstrict j' hj' (by omega)
      · refine ⟨0, by simp, ?_, ?_, ?_⟩
        · rw [firstMin_cons, hget]
          show (if distLab lab ((r :: rs).get ⟨i', hi'⟩).lab < distLab lab p.lab
                then some ((r :: rs).get ⟨i', hi'⟩) else some p) = _
          rw [if_neg h]
          rfl
        · intro j hj
          cases j with
          | zero => exact le_refl _
          | succ j' =>
            have hj' : j' < (r :: rs).length := by simpa using hj
            exact le_trans (le_of_not_lt h) (hmin j' hj')
        · intro j hj hlt
          omega

/-- Concrete fixture entry used to instantiate theorems with hypotheses. -/
def wStone : Entry :=
  { id := "stone", name := "Stone", lab := ((60 : ℝ), (0 : ℝ), (0 : ℝ)),
    tags := ⟨false, false, false⟩, flags := ⟨true, true, false, false, false⟩ }

/-- C1: for every fixed non-empty palette and input Lab color,
`findNearestBlock` is deterministic (repeated calls agree); it returns the
entry at the least palette index attaining the minimal Euclidean Lab
distance, so every entry strictly before the winner is strictly farther —
in particular an exact-tie between two equidistant entries is resolved to
the one earlier in palette order; and when the palette ids are sorted
ascending, the winner of any exact tie is the lower id. -/
theorem findNearestBlock_deterministic_tiebreak
    (lab : ℝ × ℝ × ℝ) (palette : List Entry) (hne : palette ≠ []) :
    findNearestBlock lab palette = findNearestBlock lab palette ∧
    ∃ (i : ℕ) (hi : i < palette.length),
      findNearestBlock lab palette = some (palette.get ⟨i, hi⟩) ∧
      (∀ (j : ℕ) (hj : j < palette.length),
        distLab lab (palette.get ⟨i, hi⟩).lab ≤
          distLab lab (palette.get ⟨j, hj⟩).lab) ∧
      (∀ (j : ℕ) (hj : j < palette.length), j < i →
        distLab lab (palette.get ⟨i, hi⟩).lab <
          distLab lab (palette.get ⟨j, hj⟩).lab) ∧
      (List.Pairwise (fun a b : Entry => a.id ≤ b.id) palette →
        ∀ (j : ℕ) (hj : j < palette.length),
          distLab lab (palette.get ⟨j, hj⟩).lab =
            distLab lab (palette.get ⟨i, hi⟩).lab →
          (palette.get ⟨i, hi⟩).id ≤ (palette.get ⟨j, hj⟩).id) := by
  refine ⟨rfl, ?_⟩
  obtain ⟨i, hi, hget, hmin, hstrict⟩ := firstMin_spec lab palette hne
  refine ⟨i, hi, by rw [findNearestBlock_eq_firstMin]; exact hget, hmin, hstrict, ?_⟩
  intro hsorted j hj heq
  rcases lt_trichotomy j i with hlt | heqji | hgt
  · exact absurd heq (ne_of_gt (hstrict j hj hlt))
  · subst heqji
    exact le_refl _
  · exact (List.pairwise_iff_get.mp hsorted) ⟨i, hi⟩ ⟨j, hj⟩ (by simpa using hgt)

/-- Concrete instantiation of `findNearestBlock_deterministic_tiebreak` at a
one-entry palette and the origin Lab color. -/
theorem findNearestBlock_deterministic_tiebreak_witness :
    findNearestBlock ((0 : ℝ), (0 : ℝ), (0 : ℝ)) [wStone] =
      findNearestBlock ((0 : ℝ), (0 : ℝ), (0 : ℝ)) [wStone] ∧
    ∃ (i : ℕ) (hi : i < ([wStone] : List Entry).length),
      findNearestBlock ((0 : ℝ), (0 : ℝ), (0 : ℝ)) [wStone] =
        some (([wStone] : List Entry).get ⟨i, hi⟩) ∧
      (∀ (j : ℕ) (hj : j < ([wStone] : List Entry).length),
        distLab ((0 : ℝ), (0 : ℝ), (0 : ℝ)) (([wStone] : List Entry).get ⟨i, hi⟩).lab ≤
          distLab ((0 : ℝ), (0 : ℝ), (0 : ℝ)) (([wStone] : List Entry).get ⟨j, hj⟩).lab) ∧
      (∀ (j : ℕ) (hj : j < ([wStone] : List Entry).length), j < i →
        distLab ((0 : ℝ), (0 : ℝ), (0 : ℝ)) (([wStone] : List Entry).get ⟨i, hi⟩).lab <
          distLab ((0 : ℝ), (0 : ℝ), (0 : ℝ)) (([wStone] : List Entry).get ⟨j, hj⟩).lab) ∧
      (List.Pairwise (fun a b : Entry => a.id ≤ b.id) [wStone] →
        ∀ (j : ℕ) (hj : j < ([wStone] : List Entry).length),
          distLab ((0 : ℝ), (0 : ℝ), (0 : ℝ)) (([wStone] : List Entry).get ⟨j, hj⟩).lab =
            distLab ((0 : ℝ), (0 : ℝ), (0 : ℝ)) (([wStone] : List Entry).get ⟨i, hi⟩).lab →
          (([wStone] : List Entry).get ⟨i, hi⟩).id ≤
            (([wStone] : List Entry).get ⟨j, hj⟩).id) :=
  findNearestBlock_deterministic_tiebreak ((0 : ℝ), (0 : ℝ), (0 : ℝ)) [wStone] (by simp)

/-- Filter body of `buildPalette` for one catalog record, mirroring the
`continue` chain of the source loop: reject when `avg_lab` is missing, when
the entry is creative-only and creative blocks are excluded, when the
structural filter of the active mode fails, or when no curated top texture
exists; otherwise push `{ id, name: b.name || id, lab, tags, flags }`. -/
def acceptBlock (mode : String) (includeCreative : Bool) (texOk : String → Bool)
    (id : String) (b : Block) : Option Entry :=
  match b.avg_lab with
  | none => none
  | some lab =>
    if !includeCreative && b.tags.creative_only then none
    else
      let finish : Option Entry :=
        if texOk id then
          some { id := id, name := if b.name = "" then id else b.name,
                 lab := lab, tags := b.tags, flags := b.tag_flags }
        else none
      if mode = "full_solid" then
        if b.tag_flags.full_block ≠ true then none
        else if b.tags.transparent then none
        else if b.tags.noisy then none
        else finish
      else if mode = "all_solid" then
        if b.tag_flags.full_block ≠ true then none
        else if b.tags.transparent then none
        else finish
      else finish

/-- Palette construction `buildPalette` of the source: filter the catalog
(`BLOCKS`, a keyed object modelled as an association list) and sort the
accepted entries by id ascending (`arr.sort((a,b) => a.id.localeCompare(b.id))`,
modelled with the string order of Lean). -/
def buildPalette (blocks : List (String × Block)) (mode : String)
    (includeCreative : Bool) (texOk : String → Bool) : List Entry :=
  List.insertionSort (fun a b => a.id ≤ b.id)
    (blocks.filterMap (fun pr => acceptBlock mode includeCreative texOk pr.1 pr.2))

/-- Every accepted entry keeps the catalog key as its id and the catalog
average color as its Lab color. -/
theorem acceptBlock_some (mode : String) (ic : Bool) (texOk : String → Bool)
    (id : String) (b : Block) (e : Entry)
    (h : acceptBlock mode ic texOk id b = some e) :
    e.id = id ∧ b.avg_lab = some e.lab := by
  rcases hlab : b.avg_lab with _ | lab
  · simp [acceptBlock, hlab] at h
  · simp only [acceptBlock, hlab] at h
    split_ifs at h <;>
      first
        | exact Option.noConfusion h
        | (simp only [Option.some.injEq] at h; subst h; exact ⟨rfl, rfl⟩)

/-- Concrete fixture catalog record matching `wStone`. -/
def wBlockStone : Block :=
  { name := "Stone", avg_lab := some ((60 : ℝ), (0 : ℝ), (0 : ℝ)),
    tags := ⟨false, false, false⟩, tag_flags := ⟨true, true, false, false, false⟩ }

/-- C6: under filter mode `full_solid` (the strict-solid mode of the spec)
every palette entry is a full block and is neither tagged transparent nor
noisy — in particular a transparent or noisy full block is excluded. -/
theorem buildPalette_full_solid_excludes (blocks : List (String × Block))
    (includeCreative : Bool) (texOk : String → Bool) (e : Entry)
    (he : e ∈ buildPalette blocks "full_solid" includeCreative texOk) :
    e.flags.full_block = true ∧ e.tags.transparent = false ∧ e.tags.noisy = false := by
  have hperm := List.perm_insertionSort (fun a b : Entry => a.id ≤ b.id)
    (blocks.filterMap (fun pr => acceptBlock "full_solid" includeCreative texOk pr.1 pr.2))
  have he' : e ∈ blocks.filterMap
      (fun pr => acceptBlock "full_solid" includeCreative texOk pr.1 pr.2) :=
    hperm.mem_iff.mp he
  obtain ⟨pr, hpr, hacc⟩ := List.mem_filterMap.mp he'
  rcases hlab : pr.2.avg_lab with _ | lab
  · simp [acceptBlock, hlab] at hacc
  · simp only [acceptBlock, hlab] at hacc
    split_ifs at hacc <;>
      first
        | exact Option.noConfusion hacc
        | (simp only [Option.some.injEq] at hacc; subst hacc; simp_all)

/-- Concrete instantiation of `buildPalette_full_solid_excludes` at a
one-record catalog. -/
theorem buildPalette_full_solid_excludes_witness :
    wStone.flags.full_block = true ∧ wStone.tags.transparent = false ∧
      wStone.tags.noisy = false :=
  buildPalette_full_solid_excludes [("stone", wBlockStone)] false (fun _ => true) wStone
    (by simp [buildPalette, acceptBlock, wBlockStone, wStone,
              List.insertionSort, List.orderedInsert])

instance : IsTotal Entry (fun a b : Entry => a.id ≤ b.id) :=
  ⟨fun a b => le_total a.id b.id⟩

instance : IsTrans Entry (fun a b : Entry => a.id ≤ b.id) :=
  ⟨fun _ _ _ h1 h2 => le_trans h1 h2⟩

/-- Ids appearing in the filtered (pre-sort) palette all come from catalog keys. -/
theorem filterMap_acceptBlock_id_subset (mode : String) (ic : Bool)
    (texOk : String → Bool) (blocks : List (String × Block)) :
    ∀ s ∈ (blocks.filterMap
        (fun pr => acceptBlock mode ic texOk pr.1 pr.2)).map Entry.id,
      s ∈ blocks.map Prod.fst := by
  intro s hs
  obtain ⟨e, he, rfl⟩ := List.mem_map.mp hs
  obtain ⟨pr, hpr, hacc⟩ := List.mem_filterMap.mp he
  obtain ⟨hid, -⟩ := acceptBlock_some mode ic texOk pr.1 pr.2 e hacc
  rw [hid]
  exact List.mem_map.mpr ⟨pr, hpr, rfl⟩

/-- Nodup catalog keys give nodup ids in the filtered (pre-sort) palette. -/
theorem filterMap_acceptBlock_id_nodup (mode : String) (ic : Bool)
    (texOk : String → Bool) :
    ∀ blocks : List (String × Block), (blocks.map Prod.fst).Nodup →
      ((blocks.filterMap
          (fun pr => acceptBlock mode ic texOk pr.1 pr.2)).map Entry.id).Nodup := by
  intro blocks
  induction blocks with
  | nil => intro _; simp
  | cons pr rest ih =>
    intro hnd
    rw [List.map_cons, List.nodup_cons] at hnd
    rcases hF : acceptBlock mode ic texOk pr.1 pr.2 with _ | e
    · rw [List.filterMap_cons_none (by exact hF)]
      exact ih hnd.2
    · rw [List.filterMap_cons_some (by exact hF)]
      rw [List.map_cons, List.nodup_cons]
      refine ⟨?_, ih hnd.2⟩
      intro hmem
      obtain ⟨hid, -⟩ := acceptBlock_some mode ic texOk pr.1 pr.2 e hF
      exact hnd.1 (by
        have := filterMap_acceptBlock_id_subset mode ic texOk rest e.id hmem
        rwa [hid] at this)

/-- C7: for every catalog, filter configuration and asset-availability
function (with the catalog keyed uniquely, as a JavaScript object is), the
palette is ordered by id ascending, has no duplicate ids, draws every
entry's color from a present (non-null) catalog average color, and
rebuilding from identical inputs yields the identical ordered palette. -/
theorem buildPalette_invariants (blocks : List (String × Block)) (mode : String)
    (includeCreative : Bool) (texOk : String → Bool)
    (hnd : (blocks.map Prod.fst).Nodup) :
    List.Pairwise (fun a b : Entry => a.id ≤ b.id)
      (buildPalette blocks mode includeCreative texOk) ∧
    ((buildPalette blocks mode includeCreative texOk).map Entry.id).Nodup ∧
    (∀ e ∈ buildPalette blocks mode includeCreative texOk,
      ∃ b : Block, (e.id, b) ∈ blocks ∧ b.avg_lab = some e.lab) ∧
    buildPalette blocks mode includeCreative texOk =
      buildPalette blocks mode includeCreative texOk := by
  refine ⟨?_, ?_, ?_, rfl⟩
  · exact List.sorted_insertionSort _ _
  · have hperm := List.perm_insertionSort (fun a b : Entry => a.id ≤ b.id)
      (blocks.filterMap (fun pr => acceptBlock mode includeCreative texOk pr.1 pr.2))
    have hnodup := filterMap_acceptBlock_id_nodup mode includeCreative texOk blocks hnd
    exact ((hperm.map Entry.id).nodup_iff).mpr hnodup
  · intro e he
    have hperm := List.perm_insertionSort (fun a b : Entry => a.id ≤ b.id)
      (blocks.filterMap (fun pr => acceptBlock mode includeCreative texOk pr.1 pr.2))
    obtain ⟨pr, hpr, hacc⟩ := List.mem_filterMap.mp (hperm.mem_iff.mp he)
    obtain ⟨hid, hlab⟩ := acceptBlock_some mode includeCreative texOk pr.1 pr.2 e hacc
    refine ⟨pr.2, ?_, hlab⟩
    rw [hid]
    exact hpr

/-- Concrete instantiation of `buildPalette_invariants` at a one-record
catalog. -/
theorem buildPalette_invariants_witness :
    List.Pairwise (fun a b : Entry => a.id ≤ b.id)
      (buildPalette [("stone", wBlockStone)] "full_solid" false (fun _ => true)) ∧
    ((buildPalette [("stone", wBlockStone)] "full_solid" false
        (fun _ => true)).map Entry.id).Nodup ∧
    (∀ e ∈ buildPalette [("stone", wBlockStone)] "full_solid" false (fun _ => true),
      ∃ b : Block, (e.id, b) ∈ [("stone", wBlockStone)] ∧ b.avg_lab = some e.lab) ∧
    buildPalette [("stone", wBlockStone)] "full_solid" false (fun _ => true) =
      buildPalette [("stone", wBlockStone)] "full_solid" false (fun _ => true) :=
  buildPalette_invariants [("stone", wBlockStone)] "full_solid" false (fun _ => true)
    (by simp)

/-- One RGBA pixel of the size-by-size source buffer.  The channels come
from a `Uint8ClampedArray`, hence bytes. -/
structure Pixel where
  r : Fin 256
  g : Fin 256
  b : Fin 256
  a : Fin 256
deriving DecidableEq

/-- Cache key `(r<<16) | (g<<8) | b` computed by `generate` for an opaque
pixel. -/
def pixelKey (r g b : Fin 256) : ℕ :=
  ((r : ℕ) <<< 16) ||| ((g : ℕ) <<< 8) ||| (b : ℕ)

/-- The packed key in additive form: the three byte fields occupy disjoint
bit ranges, so the bitwise ors are sums. -/
theorem pixelKey_eq_add (r g b : Fin 256) :
    pixelKey r g b = (r : ℕ) * 65536 + (g : ℕ) * 256 + (b : ℕ) := by
  have or1 : (2 : ℕ) ^ 16 * (r : ℕ) + (g : ℕ) * 256 =
      (2 : ℕ) ^ 16 * (r : ℕ) ||| (g : ℕ) * 256 :=
    Nat.mul_add_lt_is_or (by have := g.isLt; omega) (r : ℕ)
  have or2 : (2 : ℕ) ^ 8 * ((r : ℕ) * 256 + (g : ℕ)) + (b : ℕ) =
      (2 : ℕ) ^ 8 * ((r : ℕ) * 256 + (g : ℕ)) ||| (b : ℕ) :=
    Nat.mul_add_lt_is_or (by have := b.isLt; omega) ((r : ℕ) * 256 + (g : ℕ))
  have e1 : (r : ℕ) <<< 16 = (2 : ℕ) ^ 16 * (r : ℕ) := by
    rw [Nat.shiftLeft_eq]; ring
  have e2 : (g : ℕ) <<< 8 = (g : ℕ) * 256 := by
    rw [Nat.shiftLeft_eq]
  have e3 : (2 : ℕ) ^ 8 * ((r : ℕ) * 256 + (g : ℕ)) =
      (2 : ℕ) ^ 16 * (r : ℕ) + (g : ℕ) * 256 := by ring
  calc pixelKey r g b
      = ((2 : ℕ) ^ 16 * (r : ℕ) ||| (g : ℕ) * 256) ||| (b : ℕ) := by
        rw [pixelKey, e1, e2]
    _ = ((2 : ℕ) ^ 16 * (r : ℕ) + (g : ℕ) * 256) ||| (b : ℕ) := by rw [← or1]
    _ = ((2 : ℕ) ^ 8 * ((r : ℕ) * 256 + (g : ℕ))) ||| (b : ℕ) := by rw [e3]
    _ = (2 : ℕ) ^ 8 * ((r : ℕ) * 256 + (g : ℕ)) + (b : ℕ) := by rw [← or2]
    _ = (r : ℕ) * 65536 + (g : ℕ) * 256 + (b : ℕ) := by ring

/-- The cache key determines the quantized color: byte channels make the
24-bit key injective. -/
theorem pixelKey_inj (r g b r' g' b' : Fin 256)
    (h : pixelKey r g b = pixelKey r' g' b') : r = r' ∧ g = g' ∧ b = b' := by
  rw [pixelKey_eq_add, pixelKey_eq_add] at h
  have hr := r.isLt
  have hg := g.isLt
  have hb := b.isLt
  have hr' := r'.isLt
  have hg' := g'.isLt
  have hb' := b'.isLt
  refine ⟨Fin.ext ?_, Fin.ext ?_, Fin.ext ?_⟩ <;> omega

/-- Increment of the counts object `counts[pick.id] = (counts[pick.id] || 0) + 1`:
an existing key is updated in place, a fresh key is appended (JavaScript
object insertion order). -/
def bumpCount : List (String × ℕ) → String → List (String × ℕ)
  | [], id => [(id, 1)]
  | (k, n) :: rest, id =>
    if k = id then (k, n + 1) :: rest else (k, n) :: bumpCount rest id

/-- Sum of all values of the counts object. -/
def countsTotal (counts : List (String × ℕ)) : ℕ :=
  (counts.map Prod.snd).sum

/-- Lookup `cache.get(key)` in the per-pass nearest-match cache. -/
def cacheFind (cache : List (ℕ × Entry)) (key : ℕ) : Option Entry :=
  (cache.find? (fun kv => kv.1 == key)).map Prod.snd

/-- Matching loop of `generate` (the `for(let i=0; i<data.length; i+=4)`
pass): transparent pixels (`a === 0`) get the empty sentinel `null`
(modelled `none`) and are not counted; opaque pixels are matched through
the per-pass cache keyed by the quantized RGB value and counted.  Returns
the assignment cells in pixel order together with the final counts.  When
`findNearestBlock` yields no entry (empty palette — excluded by the guard
in `generate` before the loop starts; the JavaScript would throw on
`pick.id`) the cell is left empty and nothing is counted. -/
noncomputable def matchLoop (palette : List Entry) :
    List (ℕ × Entry) → List (String × ℕ) → List Pixel →
      List (Option String) × List (String × ℕ)
  | _, counts, [] => ([], counts)
  | cache, counts, px :: rest =>
    if px.a = 0 then
      let r := matchLoop palette cache counts rest
      (none :: r.1, r.2)
    else
      let key := pixelKey px.r px.g px.b
      match cacheFind cache key with
      | some e =>
        let r := matchLoop palette cache (bumpCount counts e.id) rest
        (some e.id :: r.1, r.2)
      | none =>
        match findNearestBlock (rgbToLab255 px.r px.g px.b) palette with
        | some e =>
          let r := matchLoop palette ((key, e) :: cache) (bumpCount counts e.id) rest
          (some e.id :: r.1, r.2)
        | none =>
          let r := matchLoop palette cache counts rest
          (none :: r.1, r.2)

/-- Memoization-free matching pass: identical to `matchLoop` except that
every opaque pixel recomputes `findNearestBlock`.  This is the reference
pass the spec's memoization contract compares the cached pass against. -/
noncomputable def matchLoopNoCache (palette : List Entry) :
    List (String × ℕ) → List Pixel →
      List (Option String) × List (String × ℕ)
  | counts, [] => ([], counts)
  | counts, px :: rest =>
    if px.a = 0 then
      let r := matchLoopNoCache palette counts rest
      (none :: r.1, r.2)
    else
      match findNearestBlock (rgbToLab255 px.r px.g px.b) palette with
      | some e =>
        let r := matchLoopNoCache palette (bumpCount counts e.id) rest
        (some e.id :: r.1, r.2)
      | none =>
        let r := matchLoopNoCache palette counts rest
        (none :: r.1, r.2)

/-- Core of `generate` for one pass: the matching loop started with the
fresh empty cache (`const cache = new Map()`) and empty counts, over the
pixel buffer read from the cropped canvas. -/
noncomputable def generate (palette : List Entry) (pixels : List Pixel) :
    List (Option String) × List (String × ℕ) :=
  matchLoop palette [] [] pixels

/-- Cell loop of `renderTextureMosaic`, mirroring the running cell counter
`p++` of the source: a `null` cell (`if(!id) continue`) and a cell whose
id has no loaded texture (`if(!tex) continue`) draw nothing.  The result
lists the draw operations executed, as (linear cell index, texture). -/
def renderGo {τ : Type} (texCache : String → Option τ) :
    ℕ → List (Option String) → List (ℕ × τ)
  | _, [] => []
  | p, cell :: rest =>
    match cell with
    | none => renderGo texCache (p + 1) rest
    | some id =>
      match texCache id with
      | none => renderGo texCache (p + 1) rest
      | some t => (p, t) :: renderGo texCache (p + 1) rest

/-- Drawing pass `renderTextureMosaic(assign, size)` over the assignment
grid, starting at cell 0. -/
def renderTextureMosaic {τ : Type} (texCache : String → Option τ)
    (assign : List (Option String)) : List (ℕ × τ) :=
  renderGo texCache 0 assign

/-- Unresolved cells of an assignment grid: cells holding an entry id that
the tile provider fails to resolve to a texture. -/
def unresolvedCount {τ : Type} (texCache : String → Option τ)
    (assign : List (Option String)) : ℕ :=
  assign.countP (fun cell =>
    match cell with
    | none => false
    | some id => (texCache id).isNone)

/-- Per-pass cache invariant: every stored pick is the nearest-match result
of the quantized color its key encodes. -/
def CacheOK (palette : List Entry) (cache : List (ℕ × Entry)) : Prop :=
  ∀ kv ∈ cache, ∃ r g b : Fin 256,
    kv.1 = pixelKey r g b ∧
    findNearestBlock (rgbToLab255 r g b) palette = some kv.2

/-- A cache hit under the invariant returns exactly the recomputed pick. -/
theorem cacheFind_correct (palette : List Entry) (cache : List (ℕ × Entry))
    (hok : CacheOK palette cache) (r g b : Fin 256) (e : Entry)
    (hc : cacheFind cache (pixelKey r g b) = some e) :
    findNearestBlock (rgbToLab255 r g b) palette = some e := by
  obtain ⟨kv, hfind, hkv2⟩ :
      ∃ kv, cache.find? (fun kv => kv.1 == pixelKey r g b) = some kv ∧ kv.2 = e := by
    unfold cacheFind at hc
    rcases hf2 : cache.find? (fun kv => kv.1 == pixelKey r g b) with _ | kv
    · rw [hf2] at hc
      cases hc
    · rw [hf2] at hc
      simp at hc
      exact ⟨kv, hf2, hc⟩
  have hmem := List.mem_of_find?_eq_some hfind
  have hkey : kv.1 = pixelKey r g b := by
    have hp := List.find?_some hfind
    simpa using hp
  obtain ⟨r', g', b', hk, hnb⟩ := hok kv hmem
  obtain ⟨hrr, hgg, hbb⟩ := pixelKey_inj r' g' b' r g b (by rw [← hk, hkey])
  subst hrr
  subst hgg
  subst hbb
  rw [hkv2] at hnb
  exact hnb

/-- Under the cache invariant the cached loop and the cache-free loop agree
on both the assignment cells and the counts. -/
theorem matchLoop_eq_noCache (palette : List Entry) :
    ∀ (pixels : List Pixel) (cache : List (ℕ × Entry)) (counts : List (String × ℕ)),
      CacheOK palette cache →
      matchLoop palette cache counts pixels = matchLoopNoCache palette counts pixels := by
  intro pixels
  induction pixels with
  | nil => intro cache counts _; rfl
  | cons px rest ih =>
    intro cache counts hok
    by_cases ha : px.a = 0
    · simp only [matchLoop, matchLoopNoCache, if_pos ha]
      rw [ih cache counts hok]
    · simp only [matchLoop, matchLoopNoCache, if_neg ha]
      rcases hc : cacheFind cache (pixelKey px.r px.g px.b) with _ | e
      · rcases hn : findNearestBlock (rgbToLab255 px.r px.g px.b) palette with _ | e
        · simp only [hc, hn]
          rw [ih cache counts hok]
        · have hok' : CacheOK palette ((pixelKey px.r px.g px.b, e) :: cache) := by
            intro kv hkv
            rcases List.mem_cons.mp hkv with hkv | hkv
            · subst hkv
              exact ⟨px.r, px.g, px.b, rfl, hn⟩
            · exact hok kv hkv
          simp only [hc, hn]
          rw [ih _ _ hok']
      · have he := cacheFind_correct palette cache hok px.r px.g px.b e hc
        simp only [hc, he]
        rw [ih cache (bumpCount counts e.id) hok]

/-- C5: for every fixed palette and pixel sequence, the pass that memoizes
nearest-match picks in a cache keyed by the exact 24-bit quantized RGB value
(`generate`, whose cache is created fresh inside the pass, so no other
palette's picks can leak in) produces the same assignment grid and the same
counts as the memoization-free pass that recomputes the nearest match for
every pixel. -/
theorem generate_cache_equiv (palette : List Entry) (pixels : List Pixel) :
    (generate palette pixels).1 = (matchLoopNoCache palette [] pixels).1 ∧
    (generate palette pixels).2 = (matchLoopNoCache palette [] pixels).2 := by
  have h : generate palette pixels = matchLoopNoCache palette [] pixels :=
    matchLoop_eq_noCache palette pixels [] [] (by intro kv hkv; cases hkv)
  exact ⟨by rw [h], by rw [h]⟩

/-- A nonempty palette always yields a pick. -/
theorem findNearestBlock_isSome (lab : ℝ × ℝ × ℝ) (palette : List Entry)
    (h : palette ≠ []) : ∃ e, findNearestBlock lab palette = some e := by
  rw [findNearestBlock_eq_firstMin]
  obtain ⟨i, hi, hget, -, -⟩ := firstMin_spec lab palette h
  exact ⟨_, hget⟩

/-- Incrementing one key raises the counts total by exactly one. -/
theorem bumpCount_total (id : String) :
    ∀ counts : List (String × ℕ), countsTotal (bumpCount counts id) = countsTotal counts + 1 := by
  intro counts
  induction counts with
  | nil => simp [bumpCount, countsTotal]
  | cons kn rest ih =>
    by_cases h : kn.1 = id
    · simp [bumpCount, h, countsTotal]
      omega
    · rw [show bumpCount (kn :: rest) id = kn :: bumpCount rest id by
        rcases kn with ⟨k, n⟩
        simp [bumpCount, h]]
      simp [countsTotal] at ih ⊢
      omega

/-- Structural facts of the cache-free matching pass: the cell list matches
the pixel list in length, a cell is empty exactly when its pixel has zero
alpha, and the counts total grows by the number of opaque pixels. -/
theorem matchLoopNoCache_spec (palette : List Entry) (hpal : palette ≠ []) :
    ∀ (pixels : List Pixel) (counts : List (String × ℕ)),
      (matchLoopNoCache palette counts pixels).1.length = pixels.length ∧
      countsTotal (matchLoopNoCache palette counts pixels).2 +
          (matchLoopNoCache palette counts pixels).1.count none =
        countsTotal counts + pixels.length ∧
      (∀ (i : ℕ) (hi : i < pixels.length)
          (hi' : i < (matchLoopNoCache palette counts pixels).1.length),
        ((matchLoopNoCache palette counts pixels).1.get ⟨i, hi'⟩ = none ↔
          (pixels.get ⟨i, hi⟩).a = 0)) := by
  intro pixels
  induction pixels with
  | nil =>
    intro counts
    refine ⟨rfl, by simp [matchLoopNoCache], ?_⟩
    intro i hi
    exact absurd hi (by simp)
  | cons px rest ih =>
    intro counts
    by_cases ha : px.a = 0
    · have heq : matchLoopNoCache palette counts (px :: rest) =
          (none :: (matchLoopNoCache palette counts rest).1,
           (matchLoopNoCache palette counts rest).2) := by
        simp [matchLoopNoCache, ha]
      obtain ⟨ihlen, ihtot, ihcell⟩ := ih counts
      rw [heq]
      refine ⟨by simp [ihlen], ?_, ?_⟩
      · simp only [List.count_cons, List.length_cons]
        simp
        omega
      · intro i hi hi'
        cases i with
        | zero => simp [ha]
        | succ i' =>
          have h1 : i' < rest.length := by simpa using hi
          have h2 : i' < (matchLoopNoCache palette counts rest).1.length := by
            simpa using hi'
          simpa using ihcell i' h1 h2
    · obtain ⟨e, hn⟩ := findNearestBlock_isSome (rgbToLab255 px.r px.g px.b) palette hpal
      have heq : matchLoopNoCache palette counts (px :: rest) =
          (some e.id :: (matchLoopNoCache palette (bumpCount counts e.id) rest).1,
           (matchLoopNoCache palette (bumpCount counts e.id) rest).2) := by
        simp [matchLoopNoCache, ha, hn]
      obtain ⟨ihlen, ihtot, ihcell⟩ := ih (bumpCount counts e.id)
      rw [heq]
      refine ⟨by simp [ihlen], ?_, ?_⟩
      · rw [bumpCount_total] at ihtot
        simp only [List.count_cons, List.length_cons]
        simp
        omega
      · intro i hi hi'
        cases i with
        | zero => simp [ha]
        | succ i' =>
          have h1 : i' < rest.length := by simpa using hi
          have h2 : i' < (matchLoopNoCache palette (bumpCount counts e.id) rest).1.length := by
            simpa using hi'
          simpa using ihcell i' h1 h2

/-- Every executed draw operation comes from a cell that holds an entry id
whose texture resolved. -/
theorem renderGo_mem {τ : Type} (texCache : String → Option τ) :
    ∀ (assign : List (Option String)) (p0 p : ℕ) (t : τ),
      (p, t) ∈ renderGo texCache p0 assign →
      ∃ (i : ℕ) (hp : i < assign.length) (id : String),
        p = p0 + i ∧ assign.get ⟨i, hp⟩ = some id ∧ texCache id = some t := by
  intro assign
  induction assign with
  | nil => intro p0 p t h; cases h
  | cons cell rest ih =>
    intro p0 p t h
    rcases cell with _ | id
    · obtain ⟨i, hp, id, hpi, hget, htex⟩ := ih (p0 + 1) p t (by simpa [renderGo] using h)
      exact ⟨i + 1, by simpa using hp, id, by omega, by simpa using hget, htex⟩
    · rcases htex0 : texCache id with _ | t0
      · obtain ⟨i, hp, id', hpi, hget, htex⟩ := ih (p0 + 1) p t (by
          simpa [renderGo, htex0] using h)
        exact ⟨i + 1, by simpa using hp, id', by omega, by simpa using hget, htex⟩
      · rw [show renderGo texCache p0 (some id :: rest) =
            (p0, t0) :: renderGo texCache (p0 + 1) rest by simp [renderGo, htex0]] at h
        rcases List.mem_cons.mp h with h | h
        · obtain ⟨rfl, rfl⟩ : p = p0 ∧ t = t0 := by
            constructor <;> [exact congrArg Prod.fst h; exact congrArg Prod.snd h]
          exact ⟨0, by simp, id, by omega, by simp, htex0⟩
        · obtain ⟨i, hp, id', hpi, hget, htex⟩ := ih (p0 + 1) p t h
          exact ⟨i + 1, by simpa using hp, id', by omega, by simpa using hget, htex⟩

/-- Partition of the cells: executed draws, empty cells and unresolved
cells together exhaust the grid. -/
theorem renderGo_length {τ : Type} (texCache : String → Option τ) :
    ∀ (assign : List (Option String)) (p0 : ℕ),
      (renderGo texCache p0 assign).length + assign.count none +
        unresolvedCount texCache assign = assign.length := by
  intro assign
  induction assign with
  | nil => intro p0; simp [renderGo, unresolvedCount]
  | cons cell rest ih =>
    intro p0
    rcases cell with _ | id
    · have := ih (p0 + 1)
      simp only [renderGo, unresolvedCount, List.countP_cons, List.count_cons,
        List.length_cons] at this ⊢
      simp
      omega
    · rcases htex0 : texCache id with _ | t0
      · have := ih (p0 + 1)
        simp only [renderGo, htex0, unresolvedCount, List.countP_cons, List.count_cons,
          List.length_cons] at this ⊢
        simp [htex0]
        omega
      · have := ih (p0 + 1)
        simp only [renderGo, htex0, unresolvedCount, List.countP_cons, List.count_cons,
          List.length_cons] at this ⊢
        simp [htex0]
        omega

/-- Concrete fixture pixel: opaque white. -/
def wPixel : Pixel := { r := 255, g := 255, b := 255, a := 255 }

/-- C2: for every generation pass over a size-by-size pixel grid (under the
non-empty-palette guard the pass runs behind), the sum of all counts values
plus the number of empty cells equals size*size; a cell is empty exactly
when its source pixel has alpha 0 (such pixels map to the empty sentinel
and appear in no count); and every executed draw operation comes from a
non-empty cell, so transparent pixels are never drawn. -/
theorem generate_counts_complete (palette : List Entry) (pixels : List Pixel)
    (size : ℕ) (hpal : palette ≠ []) (hlen : pixels.length = size * size) :
    countsTotal (generate palette pixels).2 +
        (generate palette pixels).1.count none = size * size ∧
    (generate palette pixels).1.length = size * size ∧
    (∀ (i : ℕ) (hi : i < pixels.length)
        (hi' : i < (generate palette pixels).1.length),
      ((generate palette pixels).1.get ⟨i, hi'⟩ = none ↔
        (pixels.get ⟨i, hi⟩).a = 0)) ∧
    (∀ (τ : Type) (texCache : String → Option τ) (p : ℕ) (t : τ),
      (p, t) ∈ renderTextureMosaic texCache (generate palette pixels).1 →
      ∃ hp : p < (generate palette pixels).1.length,
        (generate palette pixels).1.get ⟨p, hp⟩ ≠ none) := by
  have hgen : generate palette pixels = matchLoopNoCache palette [] pixels :=
    matchLoop_eq_noCache palette pixels [] [] (by intro kv hkv; cases hkv)
  obtain ⟨hlen1, htot, hcell⟩ := matchLoopNoCache_spec palette hpal pixels []
  rw [hgen]
  have h0 : countsTotal ([] : List (String × ℕ)) = 0 := rfl
  refine ⟨by omega, by omega, fun i hi hi' => hcell i hi hi', ?_⟩
  intro τ texCache p t hmem
  obtain ⟨i, hp, id, hpi, hget, htex⟩ := renderGo_mem texCache _ 0 p t hmem
  have hpi' : p = i := by omega
  subst hpi'
  exact ⟨hp, by rw [hget]; simp⟩

/-- Concrete instantiation of `generate_counts_complete` at a one-pixel
grid and one-entry palette. -/
theorem generate_counts_complete_witness :
    countsTotal (generate [wStone] [wPixel]).2 +
        (generate [wStone] [wPixel]).1.count none = 1 * 1 ∧
    (generate [wStone] [wPixel]).1.length = 1 * 1 ∧
    (∀ (i : ℕ) (hi : i < ([wPixel] : List Pixel).length)
        (hi' : i < (generate [wStone] [wPixel]).1.length),
      ((generate [wStone] [wPixel]).1.get ⟨i, hi'⟩ = none ↔
        (([wPixel] : List Pixel).get ⟨i, hi⟩).a = 0)) ∧
    (∀ (τ : Type) (texCache : String → Option τ) (p : ℕ) (t : τ),
      (p, t) ∈ renderTextureMosaic texCache (generate [wStone] [wPixel]).1 →
      ∃ hp : p < (generate [wStone] [wPixel]).1.length,
        (generate [wStone] [wPixel]).1.get ⟨p, hp⟩ ≠ none) :=
  generate_counts_complete [wStone] [wPixel] 1 (by simp) (by norm_num)

/-- C3 (amended): the counts are computed during matching, before any tile
resolution, so the counts total equals size*size minus the empty cells only
— unresolved ids remain counted and merely suppress drawing — while the
number of executed draw operations equals size*size minus empty cells minus
unresolved cells. -/
theorem generate_counts_vs_tiles (palette : List Entry) (pixels : List Pixel)
    (size : ℕ) (τ : Type) (texCache : String → Option τ)
    (hpal : palette ≠ []) (hlen : pixels.length = size * size) :
    countsTotal (generate palette pixels).2 =
        size * size - (generate palette pixels).1.count none ∧
    (renderTextureMosaic texCache (generate palette pixels).1).length +
        (generate palette pixels).1.count none +
        unresolvedCount texCache (generate palette pixels).1 = size * size := by
  have hgen : generate palette pixels = matchLoopNoCache palette [] pixels :=
    matchLoop_eq_noCache palette pixels [] [] (by intro kv hkv; cases hkv)
  obtain ⟨hlen1, htot, -⟩ := matchLoopNoCache_spec palette hpal pixels []
  have hrl := renderGo_length texCache (matchLoopNoCache palette [] pixels).1 0
  have h0 : countsTotal ([] : List (String × ℕ)) = 0 := rfl
  have hrt : (renderTextureMosaic texCache (matchLoopNoCache palette [] pixels).1).length =
      (renderGo texCache 0 (matchLoopNoCache palette [] pixels).1).length := rfl
  rw [hgen]
  exact ⟨by omega, by omega⟩

/-- Concrete instantiation of `generate_counts_vs_tiles` at a one-pixel
grid, one-entry palette and a tile provider that resolves nothing. -/
theorem generate_counts_vs_tiles_witness :
    countsTotal (generate [wStone] [wPixel]).2 =
        1 * 1 - (generate [wStone] [wPixel]).1.count none ∧
    (renderTextureMosaic (fun _ => (none : Option Unit))
          (generate [wStone] [wPixel]).1).length +
        (generate [wStone] [wPixel]).1.count none +
        unresolvedCount (fun _ => (none : Option Unit))
          (generate [wStone] [wPixel]).1 = 1 * 1 :=
  generate_counts_vs_tiles [wStone] [wPixel] 1 Unit (fun _ => none)
    (by simp) (by norm_num)

/-- The one-pixel, one-entry pass at a tile provider that fails to resolve
the chosen id: the pass evaluates to one assigned cell and one counted
block. -/
theorem generate_single_eval :
    generate [wStone] [wPixel] = ([some "stone"], [("stone", 1)]) := rfl

/-- Counterexample to C3 as stated: with one opaque pixel, a one-entry
palette and a tile provider that fails on the chosen id, the counts total
is 1 while size*size minus empty cells minus unresolved cells is 0 — the
counts do not subtract unresolved cells. -/
theorem generate_counts_unresolved_cex :
    countsTotal (generate [wStone] [wPixel]).2 = 1 ∧
    (generate [wStone] [wPixel]).1.count none = 0 ∧
    unresolvedCount (fun _ => (none : Option Unit)) (generate [wStone] [wPixel]).1 = 1 ∧
    countsTotal (generate [wStone] [wPixel]).2 ≠
      1 * 1 - (generate [wStone] [wPixel]).1.count none -
        unresolvedCount (fun _ => (none : Option Unit)) (generate [wStone] [wPixel]).1 := by
  rw [generate_single_eval]
  refine ⟨rfl, rfl, rfl, by decide⟩

/-- Catalog lookup `BLOCKS[id]` of the gradient tool. -/
def lookupBlock (blocks : List (String × Block)) (id : String) : Option Block :=
  (blocks.find? (fun pr => pr.1 == id)).map Prod.snd

/-- Optional-chained color lookup `BLOCKS[id]?.avg_lab`. -/
def labOf (blocks : List (String × Block)) (id : String) : Option (ℝ × ℝ × ℝ) :=
  match lookupBlock blocks id with
  | none => none
  | some b => b.avg_lab

/-- Linear Lab interpolation `lerpLab(A,B,t)` of the gradient tool. -/
def lerpLab (A B : ℝ × ℝ × ℝ) (t : ℝ) : ℝ × ℝ × ℝ :=
  ((1 - t) * A.1 + t * B.1,
   (1 - t) * A.2.1 + t * B.2.1,
   (1 - t) * A.2.2 + t * B.2.2)

/-- Scoring adjustment `preferencePenalty(block, mode, preferBuilding)` of
the gradient tool, with the sequential `p += …` accumulation of the source
and the early `return 0` for mode `anything`. -/
def preferencePenalty (block : Block) (mode : String) (preferBuilding : Bool) : ℝ :=
  let f := block.tag_flags
  let t := block.tags
  if mode = "anything" then 0
  else
    let p : ℝ := 0
    let p := if preferBuilding && !f.building_block then p + 6 else p
    let p := if f.plantlike then p + 5 else p
    let p := if f.redstone then p + 5 else p
    let p := if f.ore then p + 4 else p
    let p := if t.transparent then p + 4 else p
    let p := if t.noisy then p + 4 else p
    let p := if mode ≠ "creative" && t.creative_only then p + 8 else p
    p

/-- Penalty as the spec words it: a plain sum of independent indicator
terms, each present or absent on its own, the whole sum disabled under
mode `anything`. -/
def preferencePenaltySpec (block : Block) (mode : String) (preferBuilding : Bool) : ℝ :=
  if mode = "anything" then 0
  else
    (if preferBuilding && !block.tag_flags.building_block then 6 else 0) +
    (if block.tag_flags.plantlike then 5 else 0) +
    (if block.tag_flags.redstone then 5 else 0) +
    (if block.tag_flags.ore then 4 else 0) +
    (if block.tags.transparent then 4 else 0) +
    (if block.tags.noisy then 4 else 0) +
    (if mode ≠ "creative" && block.tags.creative_only then 8 else 0)

/-- C4: the gradient preference penalty is exactly the cumulative sum of
the spec's indicator terms — +6 for a missing building-block flag under
`preferBuilding`, +5 plantlike, +5 redstone, +4 ore, +4 transparent,
+4 noisy, +8 creative-only outside mode `creative` — and it is exactly 0
whenever the scoring mode is `anything`. -/
theorem ite_add_extract (c : Prop) [Decidable c] (p q : ℝ) :
    (if c then p + q else p) = p + (if c then q else 0) := by
  split_ifs <;> simp

theorem preferencePenalty_additive (block : Block) (mode : String)
    (preferBuilding : Bool) :
    preferencePenalty block mode preferBuilding =
      preferencePenaltySpec block mode preferBuilding ∧
    (mode = "anything" → preferencePenalty block mode preferBuilding = 0) := by
  constructor
  · by_cases hm : mode = "anything"
    · simp [preferencePenalty, preferencePenaltySpec, hm]
    · simp only [preferencePenalty, preferencePenaltySpec, if_neg hm]
      rw [ite_add_extract, ite_add_extract, ite_add_extract, ite_add_extract,
          ite_add_extract, ite_add_extract, ite_add_extract]
      ring
  · intro hm
    simp [preferencePenalty, hm]

/-- Candidate-scan body of `pickTransitions`: skip used ids when
`avoidDupes`, score the candidate by Lab distance to the target plus the
preference penalty, and keep the strictly best score (`bestScore` starts at
`Infinity`, modelled by the `none` state).  A candidate id without a catalog
record or without `avg_lab` is never produced by `rebuildCandidates` over
the loaded catalog; the source would fault on `BLOCKS[id].avg_lab` there,
and the model keeps the running best. -/
noncomputable def scanStep (blocks : List (String × Block)) (mode : String)
    (pb : Bool) (avoidDupes : Bool) (used : List String) (T : ℝ × ℝ × ℝ)
    (best : Option (String × ℝ)) (id : String) : Option (String × ℝ) :=
  if avoidDupes ∧ id ∈ used then best
  else
    match lookupBlock blocks id with
    | none => best
    | some b =>
      match b.avg_lab with
      | none => best
      | some lab =>
        let score := distLab lab T + preferencePenalty b mode pb
        match best with
        | none => some (id, score)
        | some (bid, bs) => if score < bs then some (id, score) else some (bid, bs)

/-- Inner candidate scan of `pickTransitions` for one target. -/
noncomputable def scanBest (blocks : List (String × Block)) (mode : String)
    (pb : Bool) (avoidDupes : Bool) (used : List String) (T : ℝ × ℝ × ℝ)
    (cands : List String) : Option (String × ℝ) :=
  cands.foldl (scanStep blocks mode pb avoidDupes used T) none

/-- Outer target loop of `pickTransitions`: a found best id is pushed and
added to the used set; a target with no eligible candidate is skipped. -/
noncomputable def pickLoop (blocks : List (String × Block)) (mode : String)
    (pb : Bool) (avoidDupes : Bool) (cands : List String) :
    List (ℝ × ℝ × ℝ) → List String → List String
  | [], _ => []
  | T :: Ts, used =>
    match scanBest blocks mode pb avoidDupes used T cands with
    | some bs => bs.1 :: pickLoop blocks mode pb avoidDupes cands Ts (bs.1 :: used)
    | none => pickLoop blocks mode pb avoidDupes cands Ts used

/-- Gradient picker `pickTransitions(idA, idB, n, avoidDupes)` of the
source: returns `[]` when either endpoint lacks a catalog color, otherwise
scans the candidate set for each of the `n` interior interpolation targets
`lerpLab(A, B, i/(n+1))`, starting from the used set `{idA, idB}`. -/
noncomputable def pickTransitions (blocks : List (String × Block))
    (cands : List String) (mode : String) (pb : Bool) (idA idB : String)
    (n : ℕ) (avoidDupes : Bool) : List String :=
  match labOf blocks idA, labOf blocks idB with
  | some A, some B =>
    pickLoop blocks mode pb avoidDupes cands
      ((List.range n).map (fun (i : ℕ) => lerpLab A B (((i : ℝ) + 1) / ((n : ℝ) + 1))))
      [idA, idB]
  | _, _ => []

/-- With duplicate avoidance on, the scan never selects a used id. -/
theorem scanStep_avoid (blocks : List (String × Block)) (mode : String)
    (pb : Bool) (used : List String) (T : ℝ × ℝ × ℝ) (id : String)
    (best : Option (String × ℝ))
    (hbest : ∀ bs, best = some bs → bs.1 ∉ used) :
    ∀ bs', scanStep blocks mode pb true used T best id = some bs' → bs'.1 ∉ used := by
  intro bs' h
  by_cases hskip : (true = true) ∧ id ∈ used
  · rw [show scanStep blocks mode pb true used T best id = best by
        rw [scanStep, if_pos hskip]] at h
    exact hbest bs' h
  · have hid : id ∉ used := fun hmem => hskip ⟨rfl, hmem⟩
    rcases hlk : lookupBlock blocks id with _ | b
    · rw [show scanStep blocks mode pb true used T best id = best by
          simp only [scanStep, if_neg hskip, hlk]
          simp [hid]] at h
      exact hbest bs' h
    · rcases hal : b.avg_lab with _ | lab
      · rw [show scanStep blocks mode pb true used T best id = best by
            simp only [scanStep, if_neg hskip, hlk, hal]
            simp [hid]] at h
        exact hbest bs' h
      · rcases hbv : best with _ | bp
        · rw [show scanStep blocks mode pb true used T best id =
              some (id, distLab lab T + preferencePenalty b mode pb) by
              simp only [scanStep, if_neg hskip, hlk, hal, hbv]
              simp [hid]] at h
          obtain rfl := (Option.some.inj h).symm
          exact hid
        · rcases bp with ⟨bid, bsc⟩
          by_cases hlt : distLab lab T + preferencePenalty b mode pb < bsc
          · rw [show scanStep blocks mode pb true used T best id =
                some (id, distLab lab T + preferencePenalty b mode pb) by
                simp only [scanStep, if_neg hskip, hlk, hal, hbv, if_pos hlt]
                simp [hid]] at h
            obtain rfl := (Option.some.inj h).symm
            exact hid
          · rw [show scanStep blocks mode pb true used T best id = some (bid, bsc) by
                simp only [scanStep, if_neg hskip, hlk, hal, hbv, if_neg hlt]
                simp [hid]] at h
            exact hbest bs' (hbv.trans h)

/-- The whole scan never selects a used id when duplicate avoidance is on. -/
theorem scanBest_avoid (blocks : List (String × Block)) (mode : String)
    (pb : Bool) (used : List String) (T : ℝ × ℝ × ℝ) :
    ∀ (cands : List String) (init : Option (String × ℝ)),
      (∀ bs, init = some bs → bs.1 ∉ used) →
      ∀ bs', cands.foldl (scanStep blocks mode pb true used T) init = some bs' →
        bs'.1 ∉ used := by
  intro cands
  induction cands with
  | nil => intro init hinit bs' h; exact hinit bs' h
  | cons id rest ih =>
    intro init hinit bs' h
    rw [List.foldl_cons] at h
    exact ih (scanStep blocks mode pb true used T init id)
      (scanStep_avoid blocks mode pb used T id init hinit) bs' h

/-- Soundness of the target loop under duplicate avoidance: at most one
pick per target, no pick from the used set, and no repeated pick. -/
theorem pickLoop_sound (blocks : List (String × Block)) (mode : String)
    (pb : Bool) (cands : List String) :
    ∀ (Ts : List (ℝ × ℝ × ℝ)) (used : List String),
      (pickLoop blocks mode pb true cands Ts used).length ≤ Ts.length ∧
      (∀ x ∈ pickLoop blocks mode pb true cands Ts used, x ∉ used) ∧
      (pickLoop blocks mode pb true cands Ts used).Nodup := by
  intro Ts
  induction Ts with
  | nil =>
    intro used
    refine ⟨by simp [pickLoop], ?_, by simp [pickLoop]⟩
    intro x hx
    simp [pickLoop] at hx
  | cons T Ts ih =>
    intro used
    rcases hs : scanBest blocks mode pb true used T cands with _ | bs
    · have heq : pickLoop blocks mode pb true cands (T :: Ts) used =
          pickLoop blocks mode pb true cands Ts used := by
        simp only [pickLoop, hs]
      rw [heq]
      obtain ⟨hl, hm, hn⟩ := ih used
      exact ⟨le_trans hl (by simp), hm, hn⟩
    · have heq : pickLoop blocks mode pb true cands (T :: Ts) used =
          bs.1 :: pickLoop blocks mode pb true cands Ts (bs.1 :: used) := by
        simp only [pickLoop, hs]
      rw [heq]
      have hb1 : bs.1 ∉ used :=
        scanBest_avoid blocks mode pb used T cands none (by intro bs0 h0; cases h0) bs hs
      obtain ⟨hl, hm, hn⟩ := ih (bs.1 :: used)
      refine ⟨by simpa using Nat.succ_le_succ hl, ?_, ?_⟩
      · intro x hx
        rcases List.mem_cons.mp hx with rfl | hx
        · exact hb1
        · intro hxu
          exact (hm x hx) (List.mem_cons_of_mem _ hxu)
      · rw [List.nodup_cons]
        refine ⟨?_, hn⟩
        intro hmem
        exact (hm bs.1 hmem) (List.mem_cons_self _ _)

/-- C8: for every catalog, candidate set, scoring settings, endpoints and
requested count n, `pickTransitions` with `avoidDupes = true` returns at
most n ids, never returns either endpoint, and never repeats a pick; a
target with no remaining candidate is skipped (the function is total and
simply produces a shorter sequence), never an error or padding. -/
theorem pickTransitions_avoidDuplicates (blocks : List (String × Block))
    (cands : List String) (mode : String) (pb : Bool) (idA idB : String) (n : ℕ) :
    (pickTransitions blocks cands mode pb idA idB n true).length ≤ n ∧
    idA ∉ pickTransitions blocks cands mode pb idA idB n true ∧
    idB ∉ pickTransitions blocks cands mode pb idA idB n true ∧
    (pickTransitions blocks cands mode pb idA idB n true).Nodup := by
  rcases hA : labOf blocks idA with _ | A
  · have heq : pickTransitions blocks cands mode pb idA idB n true = [] := by
      rcases hB : labOf blocks idB with _ | B <;> simp only [pickTransitions, hA, hB]
    rw [heq]
    simp
  · rcases hB : labOf blocks idB with _ | B
    · have heq : pickTransitions blocks cands mode pb idA idB n true = [] := by
        simp only [pickTransitions, hA, hB]
      rw [heq]
      simp
    · have heq : pickTransitions blocks cands mode pb idA idB n true =
          pickLoop blocks mode pb true cands
            ((List.range n).map (fun (i : ℕ) => lerpLab A B (((i : ℝ) + 1) / ((n : ℝ) + 1))))
            [idA, idB] := by
        simp only [pickTransitions, hA, hB]
      rw [heq]
      obtain ⟨hl, hm, hn⟩ := pickLoop_sound blocks mode pb cands
        ((List.range n).map (fun (i : ℕ) => lerpLab A B (((i : ℝ) + 1) / ((n : ℝ) + 1))))
        [idA, idB]
      refine ⟨?_, ?_, ?_, hn⟩
      · calc (pickLoop blocks mode pb true cands _ [idA, idB]).length
            ≤ ((List.range n).map
                (fun (i : ℕ) => lerpLab A B (((i : ℝ) + 1) / ((n : ℝ) + 1)))).length := hl
          _ = n := by simp
      · intro hmem
        exact (hm idA hmem) (by simp)
      · intro hmem
        exact (hm idB hmem) (by simp)

/-- C10: whenever either endpoint id is absent from the catalog or lacks an
average Lab color, the gradient picker returns the empty sequence, for
every candidate set and setting — no candidate influences the result and no
error is raised. -/
theorem pickTransitions_missing_endpoint (blocks : List (String × Block))
    (cands : List String) (mode : String) (pb : Bool) (idA idB : String)
    (n : ℕ) (avoidDupes : Bool)
    (h : labOf blocks idA = none ∨ labOf blocks idB = none) :
    pickTransitions blocks cands mode pb idA idB n avoidDupes = [] := by
  rcases h with h | h
  · rcases hB : labOf blocks idB with _ | B <;> simp only [pickTransitions, h, hB]
  · rcases hA : labOf blocks idA with _ | A <;> simp only [pickTransitions, hA, h]

/-- Concrete instantiation of `pickTransitions_missing_endpoint` at the
empty catalog. -/
theorem pickTransitions_missing_endpoint_witness :
    pickTransitions [] ["snow"] "anything" false "stone" "coal" 3 true = [] :=
  pickTransitions_missing_endpoint [] ["snow"] "anything" false "stone" "coal" 3 true
    (Or.inl rfl)

/-- The transfer curve fixes black: `srgbToLinear 0 = 0`. -/
theorem srgbToLinear_zero : srgbToLinear 0 = 0 := by
  rw [srgbToLinear, if_pos (by norm_num)]
  norm_num

/-- The transfer curve fixes white: `srgbToLinear 1 = 1`. -/
theorem srgbToLinear_one : srgbToLinear 1 = 1 := by
  rw [srgbToLinear, if_neg (by norm_num)]
  rw [show ((1 : ℝ) + 0.055) / 1.055 = 1 by norm_num, Real.one_rpow]

/-- Value of the piecewise Lab helper at 0 (linear branch). -/
theorem fLab_zero : fLab 0 = 4 / 29 := by
  simp only [fLab]
  rw [if_neg (by norm_num)]
  norm_num

/-- Value of the piecewise Lab helper at 1 (cube-root branch). -/
theorem fLab_one : fLab 1 = 1 := by
  simp only [fLab]
  rw [if_pos (by norm_num)]
  exact Real.one_rpow _

/-- Bounds for the helper just above 1: the cube root of `1.0000001` lies
between 1 and `1.0000001`. -/
theorem fLab_white_bounds :
    1 ≤ fLab 1.0000001 ∧ fLab 1.0000001 ≤ 1.0000001 := by
  have hbr : fLab (1.0000001 : ℝ) = (1.0000001 : ℝ) ^ ((1 : ℝ) / 3) := by
    simp only [fLab]
    rw [if_pos (by norm_num)]
  have h1le : (1 : ℝ) ≤ (1.0000001 : ℝ) := by norm_num
  constructor
  · rw [hbr]
    calc (1 : ℝ) = (1.0000001 : ℝ) ^ (0 : ℝ) := by rw [Real.rpow_zero]
      _ ≤ (1.0000001 : ℝ) ^ ((1 : ℝ) / 3) :=
        Real.rpow_le_rpow_of_exponent_le h1le (by norm_num)
  · rw [hbr]
    calc (1.0000001 : ℝ) ^ ((1 : ℝ) / 3) ≤ (1.0000001 : ℝ) ^ (1 : ℝ) :=
        Real.rpow_le_rpow_of_exponent_le h1le (by norm_num)
      _ = (1.0000001 : ℝ) := Real.rpow_one _

/-- C9: `rgbToLab255` is deterministic — repeated evaluation of the pure
function is identical — and its reference values hold: black maps exactly
to Lab (0,0,0), and white maps to Lab (100,0,0) within 1/100 in every
component (the Y row of the D65 matrix sums to 1.0000001, hence the tiny
tolerance). -/
theorem rgbToLab255_reference :
    (∀ R G B : ℕ, rgbToLab255 R G B = rgbToLab255 R G B) ∧
    rgbToLab255 0 0 0 = ((0 : ℝ), (0 : ℝ), (0 : ℝ)) ∧
    |(rgbToLab255 255 255 255).1 - 100| ≤ 1 / 100 ∧
    |(rgbToLab255 255 255 255).2.1| ≤ 1 / 100 ∧
    |(rgbToLab255 255 255 255).2.2| ≤ 1 / 100 := by
  have hblack : rgbToLab255 0 0 0 = ((0 : ℝ), (0 : ℝ), (0 : ℝ)) := by
    have hc : (((0 : ℕ) : ℝ) / 255) = 0 := by norm_num
    simp only [rgbToLab255, rgbToXyz, hc, srgbToLinear_zero]
    simp only [xyzToLab]
    rw [show (0 : ℝ) * 0.4124564 + 0 * 0.3575761 + 0 * 0.1804375 = 0 by norm_num,
        show (0 : ℝ) * 0.2126729 + 0 * 0.7151522 + 0 * 0.0721750 = 0 by norm_num,
        show (0 : ℝ) * 0.0193339 + 0 * 0.1191920 + 0 * 0.9503041 = 0 by norm_num]
    rw [show (0 : ℝ) / 0.95047 = 0 by norm_num,
        show (0 : ℝ) / 1.0 = 0 by norm_num,
        show (0 : ℝ) / 1.08883 = 0 by norm_num, fLab_zero]
    norm_num
  have hwhite : rgbToLab255 255 255 255 =
      (116 * fLab 1.0000001 - 16, 500 * (1 - fLab 1.0000001),
       200 * (fLab 1.0000001 - 1)) := by
    have hc : (((255 : ℕ) : ℝ) / 255) = 1 := by norm_num
    simp only [rgbToLab255, rgbToXyz, hc, srgbToLinear_one]
    simp only [xyzToLab]
    rw [show (1 : ℝ) * 0.4124564 + 1 * 0.3575761 + 1 * 0.1804375 = 0.95047 by norm_num,
        show (1 : ℝ) * 0.2126729 + 1 * 0.7151522 + 1 * 0.0721750 = 1.0000001 by norm_num,
        show (1 : ℝ) * 0.0193339 + 1 * 0.1191920 + 1 * 0.9503041 = 1.08883 by norm_num]
    rw [show (0.95047 : ℝ) / 0.95047 = 1 by norm_num,
        show (1.0000001 : ℝ) / 1.0 = 1.0000001 by norm_num,
        show (1.08883 : ℝ) / 1.08883 = 1 by norm_num, fLab_one]
  obtain ⟨hlo, hhi⟩ := fLab_white_bounds
  refine ⟨fun _ _ _ => rfl, hblack, ?_, ?_, ?_⟩
  · rw [hwhite]
    rw [abs_le]
    constructor <;> nlinarith
  · rw [hwhite]
    rw [abs_le]
    constructor <;> nlinarith
  · rw [hwhite]
    rw [abs_le]
    constructor <;> nlinarith
